import Mathlib

/-!
Verification of `ds_mcp.tables.base` (DS-MCP shared table helpers).

A shallow embedding, over `List Char`, of the pure core of
`src/ds_mcp/tables/base.py`: macro expansion (`expand_macros`), SQL safety
validation and limit governing (`_prepare_query`), the execute/retry loop
(`_run_select`), result envelope construction, parameter coercion and
validation (`ParameterSpec.apply`), and the generated SQL tool body
(`make_sql_tool`).

Python strings are modelled as `List Char` (ASCII semantics for case
mapping, whitespace and digits; the repository only feeds ASCII SQL text
through these paths). Python exceptions are modelled with `Except`:
`.error` is a raised exception, and the places where the source catches
an exception are translated to explicit `match`es on the `Except` value.
-/

namespace DsMcp

/-! ## Character classes used by the regular expressions in `base.py` -/

/-- Character class `[A-Z0-9_]` of `_MACRO_PATTERN`'s name group. -/
def isMacroNameChar (c : Char) : Bool :=
  ('A' ≤ c && c ≤ 'Z') || ('0' ≤ c && c ≤ '9') || c = '_'

/-- Character class `[A-Za-z_]` opening `_MACRO_PATTERN`'s alias group
(also the first character of `_PARAM_PATTERN`'s name group). -/
def isAliasStartChar (c : Char) : Bool :=
  ('A' ≤ c && c ≤ 'Z') || ('a' ≤ c && c ≤ 'z') || c = '_'

/-- Character class `[A-Za-z0-9_]`: the tail of the alias and `:name`
groups, and also regex `\w` (ASCII), used for the `\b` word boundaries. -/
def isWordChar (c : Char) : Bool :=
  isAliasStartChar c || ('0' ≤ c && c ≤ '9')

/-- ASCII decimal digit, regex `\d`. -/
def isDigitChar (c : Char) : Bool := '0' ≤ c && c ≤ '9'

/-- Python `str.isspace` / regex `\s`, restricted to ASCII. -/
def isSpaceChar (c : Char) : Bool :=
  c = ' ' || c = '\t' || c = '\n' || c = '\x0d' || c = '\x0b' || c = '\x0c'

/-- Python `str.upper` on one ASCII character. -/
def pyUpperChar (c : Char) : Char := c.toUpper

/-- Python `str.lower` on one ASCII character (used for the
case-insensitive `_LIMIT_PATTERN`). -/
def pyLowerChar (c : Char) : Char := c.toLower

/-- Python `str.upper` (ASCII model). -/
def pyUpper (l : List Char) : List Char := l.map pyUpperChar

/-! ## Small Python string helpers -/

/-- Python `str.lstrip()` (whitespace). -/
def pyLstrip (l : List Char) : List Char := l.dropWhile isSpaceChar

/-- Python `str.rstrip()` (whitespace). -/
def pyRstrip (l : List Char) : List Char :=
  (l.reverse.dropWhile isSpaceChar).reverse

/-- Python `str.strip()` (whitespace on both ends). -/
def pyStrip (l : List Char) : List Char := pyRstrip (pyLstrip l)

/-- Python `str.rstrip(";")`: remove every trailing `';'`. -/
def rstripSemicolons (l : List Char) : List Char :=
  (l.reverse.dropWhile (· = ';')).reverse

/-- Python's substring operator `needle in hay` on strings. -/
def containsSub (needle : List Char) : List Char → Bool
  | [] => needle.isEmpty
  | c :: cs => needle.isPrefixOf (c :: cs) || containsSub needle cs

/-- Decimal value of a nonempty ASCII digit run, `int(digits)`. -/
def parseNatDigits (l : List Char) : Nat :=
  l.foldl (fun acc c => 10 * acc + (c.toNat - '0'.toNat)) 0

/-! ## Macro registry and `_MACRO_PATTERN`

`_MACRO_PATTERN = \{\{([A-Z0-9_]+)(?::([A-Za-z_][A-Za-z0-9_]*))?\}\}`.

A macro value is either a literal replacement string or a callable taking
the optional alias (`MacroValue = str | Callable[[Optional[str]], str]`).
A registry is modelled as the lookup function of the Python `dict`
(`self.macros.get(name)`). -/

inductive MacroVal where
  | lit (s : List Char)
  | fn (f : Option (List Char) → List Char)

def Macros : Type := List Char → Option MacroVal

/-- One match of `_MACRO_PATTERN`: captured name, optional captured
alias, and the text following the match. -/
structure MacroMatch where
  name : List Char
  aliasOpt : Option (List Char)
  rest : List Char

/-- The exact text consumed by a `_MACRO_PATTERN` match
(`match.group(0)`). -/
def MacroMatch.matched (mm : MacroMatch) : List Char :=
  '{' :: '{' :: (mm.name ++
    (match mm.aliasOpt with
      | none => []
      | some a => ':' :: a) ++ ['}', '}'])

/-- Try to match `_MACRO_PATTERN` at the head of the text.  The name and
alias groups are greedy runs over character classes that exclude `:` and
`}`, so maximal munch coincides with the regex engine's
backtracking search. -/
def matchMacro : List Char → Option MacroMatch
  | '{' :: '{' :: rest =>
    let name := rest.takeWhile isMacroNameChar
    if name.isEmpty then none
    else
      match rest.dropWhile isMacroNameChar with
      | '}' :: '}' :: rest2 => some ⟨name, none, rest2⟩
      | ':' :: c :: rest3 =>
        if isAliasStartChar c then
          match rest3.dropWhile isWordChar with
          | '}' :: '}' :: rest4 =>
            some ⟨name, some (c :: rest3.takeWhile isWordChar), rest4⟩
          | _ => none
        else none
      | _ => none
  | _ => none

/-- Python `value.format(alias=alias)`, restricted to simple replacement
fields: `\x7b\x7b` and `\x7d\x7d` are escaped braces, `\x7balias\x7d` substitutes the
alias, and any other field or unbalanced brace fails (the source catches
`KeyError`/`IndexError`/`ValueError` and falls back to the raw literal;
no macro in the repository uses conversion or format-spec syntax, which
is therefore not modelled).  Structured with fuel equal to the input
length so the definition is structural and computable. -/
def formatAliasGo (al : List Char) : Nat → List Char → Option (List Char)
  | _, [] => some []
  | 0, _ :: _ => none
  | fuel + 1, '{' :: '{' :: rest => (formatAliasGo al fuel rest).map ('{' :: ·)
  | fuel + 1, '}' :: '}' :: rest => (formatAliasGo al fuel rest).map ('}' :: ·)
  | fuel + 1, '{' :: rest =>
    let fieldName := rest.takeWhile (· ≠ '}')
    match rest.dropWhile (· ≠ '}') with
    | '}' :: rest2 =>
      if fieldName = "alias".toList then
        (formatAliasGo al fuel rest2).map (al ++ ·)
      else none
    | _ => none
  | _ + 1, '}' :: _ => none
  | fuel + 1, c :: rest => (formatAliasGo al fuel rest).map (c :: ·)

def formatAlias (v al : List Char) : Option (List Char) :=
  formatAliasGo al v.length v

/-- The `replacer` closure of `SimpleTableExecutor.expand_macros`: an
unregistered name reproduces the matched text; a callable is invoked
with the alias; a literal with an alias attempts `format`, falling back
to the raw literal on failure. -/
def replaceMatch (m : Macros) (mm : MacroMatch) : List Char :=
  match m mm.name with
  | none => mm.matched
  | some (.fn f) => f mm.aliasOpt
  | some (.lit v) =>
    match mm.aliasOpt with
    | none => v
    | some a => (formatAlias v a).getD v

/-- `_MACRO_PATTERN.sub(replacer, sql)`: scan left to right; at a match,
emit the replacement and continue after the match; otherwise copy one
character.  Structured with fuel equal to the input length (every step
consumes at least one character, so that fuel always suffices). -/
def expandGoF (m : Macros) : Nat → List Char → List Char
  | _, [] => []
  | 0, l => l
  | fuel + 1, c :: cs =>
    match matchMacro (c :: cs) with
    | some mm => replaceMatch m mm ++ expandGoF m fuel mm.rest
    | none => c :: expandGoF m fuel cs

/-- `SimpleTableExecutor.expand_macros`. -/
def expand_macros (m : Macros) (sql : List Char) : List Char :=
  expandGoF m sql.length sql

/-! ## `_FORBIDDEN_KEYWORDS` and `_LIMIT_PATTERN` -/

/-- `_FORBIDDEN_KEYWORDS`.  The source stores these in a Python `set`
whose iteration order is unspecified; the declaration order is used
here, which matters only for which keyword an error message names when
several match. -/
def FORBIDDEN_KEYWORDS : List (List Char) :=
  ["DELETE", "UPDATE", "INSERT", "DROP", "TRUNCATE", "ALTER", "CREATE",
    "COPY", "UNLOAD", "GRANT", "REVOKE"].map String.toList

/-- One match of `_LIMIT_PATTERN = \blimit\b\s+(\d+)` (case-insensitive)
at the head of the text: the keyword as spelled in the text, the
whitespace run, the digit run, and the text after the match.  The
trailing `\b` is subsumed by `\s+`; the leading `\b` is checked by the
caller, which tracks the preceding character.  `\s+` and `(\d+)` are
greedy runs over disjoint classes, so maximal munch is exact. -/
def matchLimitHere (l : List Char) : Option (List Char × List Char × List Char × List Char) :=
  let kw := l.take 5
  if kw.map pyLowerChar = "limit".toList then
    let after := l.drop 5
    let ws := after.takeWhile isSpaceChar
    if ws.isEmpty then none
    else
      let after2 := after.dropWhile isSpaceChar
      let ds := after2.takeWhile isDigitChar
      if ds.isEmpty then none
      else some (kw, ws, ds, after2.dropWhile isDigitChar)
  else none

/-- `_LIMIT_PATTERN.search`: leftmost match.  Returns
`(pre, kw, ws, digits, post)` where `pre` is the text before the match
and `kw ++ ws ++ digits` is the matched text (`match.group(0)`),
`digits` being capture group 1.  `prevIsWord` tracks whether the
previous character is a word character (for the leading `\b`). -/
def findLimitGo (prevIsWord : Bool) :
    List Char → Option (List Char × List Char × List Char × List Char × List Char)
  | [] => none
  | c :: cs =>
    match (if prevIsWord then none else matchLimitHere (c :: cs)) with
    | some (kw, ws, ds, post) => some ([], kw, ws, ds, post)
    | none =>
      match findLimitGo (isWordChar c) cs with
      | some (pre, kw, ws, ds, post) => some (c :: pre, kw, ws, ds, post)
      | none => none

def findLimit (l : List Char) :
    Option (List Char × List Char × List Char × List Char × List Char) :=
  findLimitGo false l

/-! ## `SimpleTableDefinition` (the fields `_prepare_query` reads) and
`_prepare_query` itself -/

/-- The two `SimpleTableDefinition` fields consulted by the limit
governor. -/
structure TableDef where
  default_limit : Int
  max_limit : Int

/-- Python `x or y` for `Optional[int]` (`max_rows or default_limit`):
`None` and `0` are falsy. -/
def pyOrInt (x : Option Int) (y : Int) : Int :=
  match x with
  | none => y
  | some n => if n = 0 then y else n

/-- Decimal rendering of the nonnegative integers interpolated by
`f"LIMIT {adjusted}"`. -/
def renderInt (n : Int) : List Char := (toString n).toList

/-- `SimpleTableExecutor._prepare_query`.  Returns the prepared SQL text
and the row cap, or the message of the raised `ValueError`.  The
source's `except ValueError: existing = limit` around `int(...)` is dead
code — the capture group is a digit run, which always parses — so the
parse is modelled as total. -/
def prepare_query (m : Macros) (td : TableDef) (sql : List Char)
    (max_rows : Option Int) (enforce_limit : Bool) :
    Except (List Char) (List Char × Option Int) :=
  let stripped := pyStrip sql
  if stripped.isEmpty then .error "SQL query cannot be empty".toList
  else
    let expanded := expand_macros m stripped
    let upper := pyUpper (pyLstrip expanded)
    if ¬("SELECT".toList.isPrefixOf upper || "WITH".toList.isPrefixOf upper) then
      .error "Only SELECT or WITH queries are allowed".toList
    else
      match FORBIDDEN_KEYWORDS.find? (fun kw => containsSub kw upper) with
      | some kw => .error ("Forbidden keyword detected: ".toList ++ kw)
      | none =>
        if ¬enforce_limit then .ok (expanded, max_rows)
        else
          let limit0 : Int := pyOrInt max_rows td.default_limit
          let limit1 : Int := max 1 (min limit0 td.max_limit)
          match findLimit expanded with
          | some (pre, _kw, _ws, ds, post) =>
            let existing : Int := (parseNatDigits ds : Int)
            let adjusted : Int := min existing limit1
            let expanded2 :=
              if adjusted ≠ existing then
                pre ++ "LIMIT ".toList ++ renderInt adjusted ++ post
              else expanded
            .ok (expanded2, some adjusted)
          | none =>
            .ok (rstripSemicolons expanded ++ " LIMIT ".toList ++ renderInt limit1,
              some limit1)

/-! ## Execution model: `_run_select`, `_coerce_row`, and the result
envelope

The database connection is abstracted as a backend mapping the attempt
index (0 = first `cursor.execute`, 1 = the retry) to an outcome: either
the cursor's full result set (`description` column names plus all rows)
or a raised exception's message.  The connection-management side effects
(`autocommit`, the defensive `ROLLBACK;`, `conn.rollback()`) have no
bearing on the returned value and are not modelled. -/

/-- A database cell as seen by `_coerce_row`.  `bytes` carries its
UTF-8 `"ignore"` decoding (which never raises, so the `hex()` fallback
of the source is unreachable); `obj` is any other object, carrying its
`isoformat()` rendering when the attribute exists and its `str()`
rendering. -/
inductive Cell where
  | bytes (decoded : List Char)
  | str (s : List Char)
  | int (n : Int)
  | bool (b : Bool)
  | null
  | obj (isoOpt : Option (List Char)) (reprS : List Char)

/-- The normalization `_coerce_row` applies to one cell value. -/
def coerceCell : Cell → Cell
  | .bytes d => .str d
  | .obj (some iso) _ => .str iso
  | .obj none r => .str r
  | c => c

/-- `SimpleTableExecutor._coerce_row`: build the column-keyed row
mapping (modelled as an association list; the source indexes `values`
by column position, which `zip` mirrors for equal lengths — the only
case the database produces). -/
def coerce_row (cols : List (List Char)) (vals : List Cell) :
    List (List Char × Cell) :=
  cols.zip (vals.map coerceCell)

/-- A successful `cursor.execute`: `cursor.description` names and the
full result set held by the cursor. -/
structure QueryResult where
  columns : List (List Char)
  rows : List (List Cell)

inductive ExecOutcome where
  | ok (q : QueryResult)
  | fail (msg : List Char)

/-- The execution backend: outcome of the attempt with the given index. -/
def Backend : Type := Nat → ExecOutcome

/-- The payload dict built by `_run_select` on success. -/
structure Envelope where
  columns : List (List Char)
  rows : List (List (List Char × Cell))
  row_count : Nat
  truncated : Bool
  sql : List Char

/-- Python truthiness of the `Optional[int]` row cap (`bool(limit)`):
`None` and `0` are falsy. -/
def pyTruthy : Option Int → Bool
  | none => false
  | some n => !(n == 0)

/-- `rows = cursor.fetchmany(limit) if limit else cursor.fetchall()`
followed by envelope construction.  `fetchmany` with a negative size is
modelled as returning no rows (reachable only with `enforce_limit=False`
and a negative `max_rows`; DB-API leaves it unspecified). -/
def mkEnvelope (q : QueryResult) (limit : Option Int) (sql : List Char) :
    Envelope :=
  let fetched := if pyTruthy limit then q.rows.take (limit.getD 0).toNat else q.rows
  let data := fetched.map (coerce_row q.columns)
  ⟨q.columns, data, data.length,
    pyTruthy limit && ((fetched.length : Int) == limit.getD 0), sql⟩

/-- The aborted-transaction test of `_run_select`:
`"25P02" in msg or "aborted" in msg`. -/
def abortedMsg (msg : List Char) : Bool :=
  containsSub "25P02".toList msg || containsSub "aborted".toList msg

/-- `SimpleTableExecutor._run_select`: the `while attempts < 2` loop.
The first failure is retried exactly once when its message signals an
aborted transaction; any other failure, or a failure of the retry, is
re-raised (the trailing `RuntimeError` line of the source is
unreachable). -/
def run_select (b : Backend) (sql : List Char) (limit : Option Int) :
    Except (List Char) Envelope :=
  match b 0 with
  | .ok q => .ok (mkEnvelope q limit sql)
  | .fail msg =>
    if abortedMsg msg then
      match b 1 with
      | .ok q => .ok (mkEnvelope q limit sql)
      | .fail msg2 => .error msg2
    else .error msg

/-- The value of `SimpleTableExecutor.fetch`: either the success payload
or the `{"error": ...}` dict (the source catches both the `ValueError`
from `_prepare_query` and every exception from `_run_select`). -/
inductive FetchResult where
  | err (msg : List Char)
  | ok (e : Envelope)

/-- `SimpleTableExecutor.fetch` (the `params` sequence is passed opaquely
to `cursor.execute` and does not affect control flow; it is folded into
the backend). -/
def fetch (b : Backend) (m : Macros) (td : TableDef) (sql : List Char)
    (max_rows : Option Int) (enforce_limit : Bool) : FetchResult :=
  match prepare_query m td sql max_rows enforce_limit with
  | .error e => .err e
  | .ok (prepared, limit) =>
    match run_select b prepared limit with
    | .error e => .err e
    | .ok env => .ok env

/-- `SimpleTableExecutor.run_query`: expand macros, then `fetch` (which
expands again inside `_prepare_query`); the `json.dumps` serialization
of the resulting dict is not modelled. -/
def run_query (b : Backend) (m : Macros) (td : TableDef) (sql : List Char)
    (max_rows : Option Int) (enforce_limit : Bool) : FetchResult :=
  fetch b m td (expand_macros m sql) max_rows enforce_limit

/-! ## `ParameterSpec`

Tool argument values are modelled as scalars (string, int, Python
`None`) and flat lists of scalars — the only shapes the repository's
parameter specifications produce and consume (list-shaped parameters
split delimited strings into lists of strings).  Python floats are not
modelled; every numeric value or bound in the repository is an int. -/

inductive Scalar where
  | str (s : List Char)
  | int (n : Int)
  | nonev
deriving DecidableEq

inductive Value where
  | scalar (s : Scalar)
  | list (vs : List Scalar)
deriving DecidableEq

instance : Inhabited Scalar := ⟨.nonev⟩

instance : Inhabited Value := ⟨.scalar .nonev⟩

/-- The ASCII single-quote character, used by `repr` of a string. -/
def squoteChar : Char := Char.ofNat 39

/-- Python `repr` of a scalar (as used by `str()` of a list). -/
def Scalar.pyRepr : Scalar → List Char
  | .str s => squoteChar :: (s ++ [squoteChar])
  | .int n => (toString n).toList
  | .nonev => "None".toList

/-- Python `str()` of a scalar. -/
def Scalar.pyStr : Scalar → List Char
  | .str s => s
  | .int n => (toString n).toList
  | .nonev => "None".toList

/-- Python `str()` of a value (`str` of a list renders element reprs). -/
def Value.pyStr : Value → List Char
  | .scalar s => s.pyStr
  | .list vs =>
    '[' :: (List.intercalate ", ".toList (vs.map Scalar.pyRepr) ++ [']'])

/-- `ParameterSpec` (the dataclass fields `apply` and the tool builder
read).  `default = none` models `_MISSING`; a Python default of `None`
is `some (.scalar .nonev)`.  The `coerce` and `transform` callables may
raise, hence `Except`; scalar coercions (`int`, `str`, case folds) are
modelled per scalar, and applying one to a list raises, as `int(list)`
would. -/
structure ParameterSpec where
  name : List Char
  default : Option Value := Option.none
  coerce : Option (Scalar → Except (List Char) Scalar) := Option.none
  transform : Option (Value → Except (List Char) Value) := Option.none
  min_value : Option Int := Option.none
  max_value : Option Int := Option.none
  choices : Option (List (List Char)) := Option.none
  kind : List Char := "scalar".toList
  include_in_sql : Bool := true
  as_literal : Bool := false

def ParameterSpec.has_default (p : ParameterSpec) : Bool := p.default.isSome

/-- The list-shape normalization of a delimited string:
`[v for v in (part.strip() for part in value.split(",")) if v]`. -/
def splitListArg (s : List Char) : List Scalar :=
  (((s.splitOn ',').map pyStrip).filter (fun part => ¬part.isEmpty)).map .str

/-- `isinstance(value, (int, float))`, with the numeric value. -/
def numericVal : Value → Option Int
  | .scalar (.int n) => some n
  | _ => Option.none

/-- `ParameterSpec._validate_scalar`. -/
def ParameterSpec.validate_scalar (p : ParameterSpec) (v : Value) :
    Except (List Char) Unit := do
  match p.min_value, numericVal v with
  | some mn, some n =>
    if n < mn then throw (p.name ++ " must be >= ".toList ++ renderInt mn)
    else pure ()
  | _, _ => pure ()
  match p.max_value, numericVal v with
  | some mx, some n =>
    if n > mx then throw (p.name ++ " must be <= ".toList ++ renderInt mx)
    else pure ()
  | _, _ => pure ()
  match p.choices with
  | Option.none => pure ()
  | some cs =>
    if cs.contains v.pyStr then pure ()
    else
      throw (p.name ++ " must be one of ".toList ++
        List.intercalate ", ".toList cs)

/-- `ParameterSpec.apply`: shape normalization, then element-wise
coercion, then the optional transform, then scalar/element validation.
(The `value is _MISSING` guard of the source is handled at the call
sites in the tool body, which never pass `_MISSING`.) -/
def ParameterSpec.apply (p : ParameterSpec) (v : Value) :
    Except (List Char) Value := do
  let v1 ←
    if p.kind = "list".toList then
      match v with
      | .scalar (.str s) => pure (Value.list (splitListArg s))
      | .list vs => pure (Value.list vs)
      | .scalar _ =>
        throw ("Parameter '".toList ++ p.name ++ "' expects a list".toList)
    else pure v
  let v2 ←
    match p.coerce with
    | Option.none => pure v1
    | some f =>
      if p.kind = "list".toList then
        match v1 with
        | .list vs => (vs.mapM f).map Value.list
        | .scalar s => (f s).map .scalar
      else
        match v1 with
        | .scalar s => (f s).map .scalar
        | .list _ =>
          throw "TypeError: scalar coercion applied to a list".toList
  let v3 ←
    match p.transform with
    | Option.none => pure v2
    | some g => g v2
  if p.kind = "scalar".toList then p.validate_scalar v3
  else
    match v3 with
    | .list vs => vs.forM (fun s => p.validate_scalar (.scalar s))
    | .scalar (.str s) =>
      s.forM (fun c => p.validate_scalar (.scalar (.str [c])))
    | .scalar _ => throw "TypeError: value is not iterable".toList
  pure v3

/-! ## `SQLToolSpec` and the generated tool body (`make_sql_tool`) -/

/-- `SQLToolSpec` (the fields the tool body reads; `doc` is
documentation only). -/
structure SQLToolSpec where
  name : List Char
  sql : List Char
  params : List ParameterSpec := []
  enforce_limit : Bool := true
  max_rows : Option Int := Option.none
  max_rows_param : Option (List Char) := Option.none
  prepare : Option (List (List Char × Value) → List Char) := Option.none

/-- Lookup in the `values` dict (parameter names are unique, as in the
source, where they key a Python dict). -/
def lookupVal (values : List (List Char × Value)) (nm : List Char) :
    Option Value :=
  (values.find? (fun kv => kv.1 = nm)).map (fun kv => kv.2)

/-- `int(values[...])` for the `max_rows_param` hook: ints pass through,
strings parse as optionally signed decimals after stripping whitespace,
anything else raises `TypeError`. -/
def pyInt : Value → Except (List Char) Int
  | .scalar (.int n) => pure n
  | .scalar (.str s) =>
    let t := pyStrip s
    match t with
    | '-' :: ds =>
      if ¬ds.isEmpty && ds.all isDigitChar then pure (-(parseNatDigits ds : Int))
      else .error ("invalid literal for int(): ".toList ++ s)
    | '+' :: ds =>
      if ¬ds.isEmpty && ds.all isDigitChar then pure ((parseNatDigits ds : Int))
      else .error ("invalid literal for int(): ".toList ++ s)
    | ds =>
      if ¬ds.isEmpty && ds.all isDigitChar then pure ((parseNatDigits ds : Int))
      else .error ("invalid literal for int(): ".toList ++ s)
  | _ => .error "TypeError: int() argument".toList

/-- `_PARAM_PATTERN.sub` over the expanded template
(`_render_sql_with_params`): each `:name` is replaced by the literal
`str` of its value or by `%s` while appending the value to the bound
parameter list; a name with no `include_in_sql` specification raises
`ValueError` out of the substitution.  Fuel equals the input length, as
each step consumes at least one character. -/
def renderGoF (specs : List Char → Option ParameterSpec)
    (values : List Char → Option Value) :
    Nat → List Char → Except (List Char) (List Char × List Value)
  | _, [] => pure ([], [])
  | 0, l => pure (l, [])
  | fuel + 1, ':' :: c :: rest =>
    if isAliasStartChar c then
      let nm := c :: rest.takeWhile isWordChar
      let rest2 := rest.dropWhile isWordChar
      match specs nm with
      | Option.none => throw ("Unknown SQL parameter :".toList ++ nm)
      | some sp =>
        match values nm with
        | Option.none =>
          -- unreachable: every `include_in_sql` parameter has a value
          throw ("KeyError: ".toList ++ nm)
        | some v => do
          let (out, ps) ← renderGoF specs values fuel rest2
          if sp.as_literal then pure (v.pyStr ++ out, ps)
          else pure ('%' :: 's' :: out, v :: ps)
    else do
      let (out, ps) ← renderGoF specs values fuel (c :: rest)
      pure (':' :: out, ps)
  | fuel + 1, c :: rest => do
    let (out, ps) ← renderGoF specs values fuel rest
    pure (c :: out, ps)

/-- `SimpleTableExecutor._render_sql_with_params`. -/
def render_sql_with_params (spec : SQLToolSpec)
    (values : List (List Char × Value)) (sql_template : List Char) :
    Except (List Char) (List Char × List Value) :=
  let spec_map := fun nm =>
    spec.params.find? (fun p => p.include_in_sql && p.name = nm)
  renderGoF spec_map (lookupVal values) sql_template.length sql_template

/-- Positional arguments: `for positional, param in zip(args, param_specs)`. -/
def applyPositional (ps : List ParameterSpec) (args : List Value) :
    Except (List Char) (List (List Char × Value)) :=
  match ps, args with
  | _, [] => pure []
  | [], _ :: _ => pure []   -- unreachable: the arity check runs first
  | p :: ps2, a :: args2 => do
    let v ← p.apply a
    let rest ← applyPositional ps2 args2
    pure ((p.name, v) :: rest)

/-- Keyword / default processing for the parameters left after the
positionals: a supplied keyword is applied (and popped), else the
default is applied, else `TypeError` is raised.  Returns the bound
values and the names popped from `kwargs`. -/
def applyKeywordOrDefault (ps : List ParameterSpec)
    (kwargs : List (List Char × Value)) :
    Except (List Char) (List (List Char × Value) × List (List Char)) :=
  match ps with
  | [] => pure ([], [])
  | p :: ps2 =>
    match lookupVal kwargs p.name with
    | some a => do
      let v ← p.apply a
      let (rest, used) ← applyKeywordOrDefault ps2 kwargs
      pure ((p.name, v) :: rest, p.name :: used)
    | Option.none =>
      match p.default with
      | some d => do
        -- `list(default)` copies a tuple/list default; the copy is the
        -- identity on the model's immutable values.
        let v ← p.apply d
        let (rest, used) ← applyKeywordOrDefault ps2 kwargs
        pure ((p.name, v) :: rest, used)
      | Option.none =>
        throw ("Missing required argument: ".toList ++ p.name)

/-- The body of the generated tool, as an `Except`: `.error` is an
exception raised out of the tool callable, `.ok` its returned value
(before `json.dumps`). -/
def toolRunE (b : Backend) (m : Macros) (td : TableDef) (spec : SQLToolSpec)
    (args : List Value) (kwargs : List (List Char × Value)) :
    Except (List Char) FetchResult := do
  if spec.params.length < args.length then
    throw (spec.name ++ "() takes at most ".toList ++
      renderInt spec.params.length ++ " positional arguments (".toList ++
      renderInt args.length ++ " given)".toList)
  let positional ← applyPositional spec.params args
  let (named, used) ←
    applyKeywordOrDefault (spec.params.drop args.length) kwargs
  let leftover := kwargs.filter (fun kv => ¬used.contains kv.1)
  if ¬leftover.isEmpty then
    throw ("Unexpected argument(s): ".toList ++
      List.intercalate ", ".toList (leftover.map (fun kv => kv.1)))
  let values := positional ++ named
  let sql_template :=
    match spec.prepare with
    | Option.none => spec.sql
    | some hook => hook values
  let rendered := expand_macros m sql_template
  let (rendered2, _sql_params) ← render_sql_with_params spec values rendered
  let max_rows ←
    match spec.max_rows_param with
    | some nm =>
      if ¬nm.isEmpty then
        match lookupVal values nm with
        | some v => (pyInt v).map some
        | Option.none => pure spec.max_rows
      else pure spec.max_rows
    | Option.none => pure spec.max_rows
  pure (fetch b m td rendered2 max_rows spec.enforce_limit)

/-- What the hosting layer observes when calling the generated tool:
either an uncaught exception or the tool's JSON result. -/
inductive ToolOutcome where
  | raised (msg : List Char)
  | result (r : FetchResult)

/-- The generated tool callable of `make_sql_tool`. -/
def toolRun (b : Backend) (m : Macros) (td : TableDef) (spec : SQLToolSpec)
    (args : List Value) (kwargs : List (List Char × Value)) : ToolOutcome :=
  match toolRunE b m td spec args kwargs with
  | .error e => .raised e
  | .ok r => .result r

/-! ## Concrete fixtures used by witnesses and counterexamples -/

/-- A table executor with no registered macros. -/
def emptyMacros : Macros := fun _ => Option.none

/-- The default `SimpleTableDefinition` limits
(`default_limit = 200`, `max_limit = 1000`). -/
def tdStd : TableDef := ⟨200, 1000⟩

/-- A backend that always succeeds with one row. -/
def okBackend : Backend := fun _ => .ok ⟨["c".toList], [[Cell.int 1]]⟩

/-- A backend whose first attempt fails with an aborted-transaction
message and whose second succeeds. -/
def retryBackend : Backend := fun i =>
  if i = 0 then .fail "current transaction is aborted".toList
  else .ok ⟨["c".toList], [[Cell.int 7]]⟩

/-- A backend failing on both attempts (first message transactional). -/
def doubleFailBackend : Backend := fun i =>
  if i = 0 then .fail "aborted".toList else .fail "still broken".toList

/-- A backend that fails with a non-transactional message, then would
succeed. -/
def syntaxErrBackend : Backend := fun i =>
  if i = 0 then .fail "relation t does not exist".toList
  else .ok ⟨["c".toList], [[Cell.int 7]]⟩

/-- A backend returning exactly five rows. -/
def fiveRowBackend : Backend := fun _ =>
  .ok ⟨["c".toList], List.replicate 5 [Cell.int 1]⟩

/-- A backend returning three rows. -/
def threeRowBackend : Backend := fun _ =>
  .ok ⟨["c".toList], List.replicate 3 [Cell.int 1]⟩

/-! ## C1: the keyword denylist check -/

/-- **C1, counterexample.**  The claim says a statement whose column
names merely contain a denylisted substring (`created_at` contains
`CREATE`) is *not* rejected; the code's `keyword in upper` substring
test rejects it. -/
theorem C1_counterexample :
    prepare_query emptyMacros tdStd "SELECT created_at FROM t".toList
      Option.none true =
      .error "Forbidden keyword detected: CREATE".toList := by
  rfl

/-- **C1, amended.**  The denylist check of
`SimpleTableExecutor._prepare_query` is substring matching on the
uppercased macro-expanded text, not word-boundary matching: whenever any
denylisted keyword occurs anywhere in that text — as a whole word or
embedded in an identifier — the statement is rejected (a `ValueError`
is raised). -/
theorem C1_amended (m : Macros) (td : TableDef) (sql : List Char)
    (max_rows : Option Int) (enforce_limit : Bool) (kw : List Char)
    (hkw : kw ∈ FORBIDDEN_KEYWORDS)
    (hsub : containsSub kw
      (pyUpper (pyLstrip (expand_macros m (pyStrip sql)))) = true) :
    ∃ e, prepare_query m td sql max_rows enforce_limit = .error e := by
  have hfind : (FORBIDDEN_KEYWORDS.find? (fun k => containsSub k
      (pyUpper (pyLstrip (expand_macros m (pyStrip sql)))))).isSome := by
    rw [List.find?_isSome]
    exact ⟨kw, hkw, hsub⟩
  unfold prepare_query
  dsimp only
  by_cases h1 : (pyStrip sql).isEmpty = true
  · rw [if_pos h1]; exact ⟨_, rfl⟩
  · rw [if_neg h1]
    by_cases h2 : ("SELECT".toList.isPrefixOf
        (pyUpper (pyLstrip (expand_macros m (pyStrip sql)))) ||
      "WITH".toList.isPrefixOf
        (pyUpper (pyLstrip (expand_macros m (pyStrip sql))))) = true
    · rw [if_neg (not_not_intro h2)]
      obtain ⟨k, hk⟩ := Option.isSome_iff_exists.mp hfind
      rw [hk]
      exact ⟨_, rfl⟩
    · rw [if_pos h2]; exact ⟨_, rfl⟩

/-- Closed instance of `C1_amended`. -/
theorem C1_amended_witness :
    ∃ e, prepare_query emptyMacros tdStd "SELECT created_at FROM t".toList
      Option.none true = .error e :=
  C1_amended emptyMacros tdStd "SELECT created_at FROM t".toList
    Option.none true "CREATE".toList (by decide) (by decide)

/-! ## The limit governor (C3, C9) -/

/-- Characterization of a successful `_prepare_query` under limit
enforcement: the returned cap and text as functions of the clamped
requested/default cap and of the first `LIMIT` clause of the expanded
text. -/
theorem prepare_ok_spec (m : Macros) (td : TableDef) (sql : List Char)
    (max_rows : Option Int) (text : List Char) (cap : Int)
    (h : prepare_query m td sql max_rows true = .ok (text, some cap)) :
    (∀ pre kw2 ws ds post,
      findLimit (expand_macros m (pyStrip sql)) = some (pre, kw2, ws, ds, post) →
      cap = min (parseNatDigits ds : Int)
        (max 1 (min (pyOrInt max_rows td.default_limit) td.max_limit)) ∧
      text = (if cap ≠ (parseNatDigits ds : Int) then
          pre ++ "LIMIT ".toList ++ renderInt cap ++ post
        else expand_macros m (pyStrip sql))) ∧
    (findLimit (expand_macros m (pyStrip sql)) = none →
      cap = max 1 (min (pyOrInt max_rows td.default_limit) td.max_limit) ∧
      text = rstripSemicolons (expand_macros m (pyStrip sql)) ++
        " LIMIT ".toList ++
        renderInt (max 1 (min (pyOrInt max_rows td.default_limit) td.max_limit))) := by
  unfold prepare_query at h
  dsimp only at h
  by_cases h1 : (pyStrip sql).isEmpty = true
  · rw [if_pos h1] at h; cases h
  · rw [if_neg h1] at h
    by_cases h2 : ("SELECT".toList.isPrefixOf
        (pyUpper (pyLstrip (expand_macros m (pyStrip sql)))) ||
      "WITH".toList.isPrefixOf
        (pyUpper (pyLstrip (expand_macros m (pyStrip sql))))) = true
    · rw [if_neg (not_not_intro h2)] at h
      cases hf : List.find? (fun kw => containsSub kw
          (pyUpper (pyLstrip (expand_macros m (pyStrip sql))))) FORBIDDEN_KEYWORDS with
      | some k => rw [hf] at h; cases h
      | none =>
        rw [hf] at h
        rw [if_neg (by simp)] at h
        cases hfl : findLimit (expand_macros m (pyStrip sql)) with
        | some tup =>
          obtain ⟨pre, kw2, ws, ds, post⟩ := tup
          rw [hfl] at h
          injection h with h
          injection h with htext hcap
          injection hcap with hcap
          constructor
          · intro pre2 kw3 ws2 ds2 post2 hfl2
            simp only [Option.some.injEq, Prod.mk.injEq] at hfl2
            obtain ⟨h3, h4, h5, h6, h7⟩ := hfl2
            subst h3; subst h4; subst h5; subst h6; subst h7
            exact ⟨hcap.symm, by rw [← htext, ← hcap]⟩
          · intro hnone; cases hnone
        | none =>
          rw [hfl] at h
          injection h with h
          injection h with htext hcap
          injection hcap with hcap
          constructor
          · intro pre2 kw3 ws2 ds2 post2 hfl2
            cases hfl2
          · intro hnone
            exact ⟨hcap.symm, htext.symm⟩
    · rw [if_pos h2] at h; cases h

/-- **C3, counterexample.**  With requested cap `R = 0`, default `D =
200` and ceiling `C = 1000`, the claim requires an effective cap of at
most `min(0, 1000) = 0`, but the governor treats a requested `0` as
absent (`max_rows or default_limit`) and returns cap `200`. -/
theorem C3_counterexample :
    prepare_query emptyMacros tdStd "SELECT 1".toList (some 0) true =
      .ok ("SELECT 1 LIMIT 200".toList, some 200) ∧
    ¬((200 : Int) ≤ min 0 1000) := by
  exact ⟨rfl, by decide⟩

/-- **C3, amended.**  With `R' := R or D` (`R` treated as absent when it
is `0`, per Python truthiness) and the clamp `max 1 (min R' C)`: the
effective cap never exceeds the clamp; when the expanded text contains a
`LIMIT n` clause the cap is `min n clamp` (hence never exceeds `n`, and
the clause is never loosened), only that first clause is rewritten (the
text after it is preserved verbatim) and only when the cap actually
tightens it; when no `LIMIT` clause exists one is appended with the
clamped cap. -/
theorem C3_amended (m : Macros) (td : TableDef) (sql : List Char)
    (max_rows : Option Int) (text expanded : List Char) (cap clamp : Int)
    (hexp : expanded = expand_macros m (pyStrip sql))
    (hclamp : clamp = max 1 (min (pyOrInt max_rows td.default_limit) td.max_limit))
    (h : prepare_query m td sql max_rows true = .ok (text, some cap)) :
    cap ≤ clamp ∧
    (∀ pre kw2 ws ds post,
      findLimit expanded = some (pre, kw2, ws, ds, post) →
      cap ≤ (parseNatDigits ds : Int) ∧
      cap = min (parseNatDigits ds : Int) clamp ∧
      (cap ≠ (parseNatDigits ds : Int) →
        text = pre ++ "LIMIT ".toList ++ renderInt cap ++ post) ∧
      (cap = (parseNatDigits ds : Int) → text = expanded)) ∧
    (findLimit expanded = none →
      cap = clamp ∧
      text = rstripSemicolons expanded ++ " LIMIT ".toList ++ renderInt clamp) := by
  subst hexp hclamp
  obtain ⟨hsome, hnone⟩ := prepare_ok_spec m td sql max_rows text cap h
  refine ⟨?_, ?_, hnone⟩
  · cases hfl : findLimit (expand_macros m (pyStrip sql)) with
    | some tup =>
      obtain ⟨pre, kw2, ws, ds, post⟩ := tup
      obtain ⟨hcap, _⟩ := hsome pre kw2 ws ds post hfl
      rw [hcap]; exact min_le_right _ _
    | none => exact (hnone hfl).1.le
  · intro pre kw2 ws ds post hfl
    obtain ⟨hcap, htext⟩ := hsome pre kw2 ws ds post hfl
    refine ⟨by rw [hcap]; exact min_le_left _ _, hcap, ?_, ?_⟩
    · intro hne; rwa [if_pos hne] at htext
    · intro heq; rwa [if_neg (not_not_intro heq)] at htext

/-- Closed instance of `C3_amended`: `select * from t limit 50` with
requested cap 10 tightens the clause to `LIMIT 10`, and
`10 ≤ max 1 (min (10 or 200) 1000)`. -/
theorem C3_amended_witness :
    (10 : Int) ≤ max 1 (min (pyOrInt (some 10) tdStd.default_limit) tdStd.max_limit) :=
  (C3_amended emptyMacros tdStd "select * from t limit 50".toList (some 10)
    "select * from t LIMIT 10".toList
    (expand_macros emptyMacros (pyStrip "select * from t limit 50".toList))
    10 (max 1 (min (pyOrInt (some 10) tdStd.default_limit) tdStd.max_limit))
    rfl rfl rfl).1

/-- `0` is a falsy requested cap. -/
theorem pyOrInt_zero (y : Int) : pyOrInt (some 0) y = y := by
  simp [pyOrInt]

/-- An absent requested cap. -/
theorem pyOrInt_none (y : Int) : pyOrInt Option.none y = y := rfl

/-- **C9, counterexample.**  The claim says the applied effective cap is
at least 1; but a statement carrying an explicit `LIMIT 0` clause keeps
cap `0`: the governor only tightens an existing clause
(`adjusted = min(existing, limit)`), so the clamp to `max(1, ...)` does
not protect against a zero in the text. -/
theorem C9_counterexample :
    prepare_query emptyMacros tdStd "SELECT a FROM t LIMIT 0".toList
      Option.none true =
      .ok ("SELECT a FROM t LIMIT 0".toList, some 0) ∧
    ¬((1 : Int) ≤ 0) := ⟨rfl, by decide⟩

/-- **C9, amended.**  Under limit enforcement: (i) when the expanded
text contains no `LIMIT` clause, the applied cap is at least 1; (ii) a
requested `max_rows` of `0` is treated exactly as an absent `max_rows`
(the whole `_prepare_query` result coincides); (iii) a negative
`max_rows` yields a cap of exactly 1 when no `LIMIT` clause exists.
When the text does contain `LIMIT n`, the effective cap is
`min n (max 1 (min (R or D) C))` and can be `0` (for `LIMIT 0`), so the
claim's "at least 1" holds only in the clause-free case. -/
theorem C9_amended :
    (∀ (m : Macros) (td : TableDef) (sql text : List Char)
      (max_rows : Option Int) (cap : Int),
      prepare_query m td sql max_rows true = .ok (text, some cap) →
      findLimit (expand_macros m (pyStrip sql)) = none →
      1 ≤ cap) ∧
    (∀ (m : Macros) (td : TableDef) (sql : List Char),
      prepare_query m td sql (some 0) true =
        prepare_query m td sql Option.none true) ∧
    (∀ (m : Macros) (td : TableDef) (sql text : List Char) (r cap : Int),
      r < 0 →
      prepare_query m td sql (some r) true = .ok (text, some cap) →
      findLimit (expand_macros m (pyStrip sql)) = none →
      cap = 1) := by
  refine ⟨?_, ?_, ?_⟩
  · intro m td sql text max_rows cap h hfl
    obtain ⟨hcap, _⟩ := (prepare_ok_spec m td sql max_rows text cap h).2 hfl
    rw [hcap]; exact le_max_left _ _
  · intro m td sql
    unfold prepare_query
    dsimp only
    rw [if_neg (not_not_intro rfl), if_neg (not_not_intro rfl),
      show pyOrInt (some 0) td.default_limit =
        pyOrInt Option.none td.default_limit from by simp [pyOrInt]]
  · intro m td sql text r cap hr h hfl
    obtain ⟨hcap, _⟩ := (prepare_ok_spec m td sql (some r) text cap h).2 hfl
    have hR : pyOrInt (some r) td.default_limit = r := by
      simp [pyOrInt, show r ≠ 0 from by omega]
    rw [hcap, hR]
    have hle : min r td.max_limit ≤ 1 := le_trans (min_le_left _ _) (by omega)
    exact max_eq_left hle

/-- Closed instance of `C9_amended`: an absent cap on a clause-free text
yields `200 ≥ 1`, a requested `0` behaves as absent, and a requested
`-7` clamps to exactly 1. -/
theorem C9_amended_witness :
    (1 : Int) ≤ 200 ∧
    prepare_query emptyMacros tdStd "SELECT a FROM t".toList (some 0) true =
      prepare_query emptyMacros tdStd "SELECT a FROM t".toList Option.none true ∧
    (1 : Int) = 1 := by
  refine ⟨?_, ?_, ?_⟩
  · exact C9_amended.1 emptyMacros tdStd "SELECT a FROM t".toList
      "SELECT a FROM t LIMIT 200".toList Option.none 200 (by rfl) (by rfl)
  · exact C9_amended.2.1 emptyMacros tdStd "SELECT a FROM t".toList
  · exact C9_amended.2.2 emptyMacros tdStd "SELECT a FROM t".toList
      "SELECT a FROM t LIMIT 1".toList (-7) 1 (by decide) (by rfl) (by rfl)

/-! ## The execute/retry loop (C5) and the result envelope (C6) -/

/-- **C5.**  `_run_select` retries exactly once, and only on an
aborted-transaction message: (i) a backend failing with such a message
on attempt 0 and succeeding on attempt 1 yields the successful envelope;
(ii) a backend failing on both attempts surfaces the second error;
(iii) a first failure with any other message surfaces immediately, with
no retry; (iv) the result depends only on attempts 0 and 1 — there is
never a third attempt. -/
theorem C5_retry_once :
    (∀ (b : Backend) (sql : List Char) (limit : Option Int)
      (msg : List Char) (q : QueryResult),
      b 0 = .fail msg → abortedMsg msg = true → b 1 = .ok q →
      run_select b sql limit = .ok (mkEnvelope q limit sql)) ∧
    (∀ (b : Backend) (sql : List Char) (limit : Option Int)
      (msg msg2 : List Char),
      b 0 = .fail msg → abortedMsg msg = true → b 1 = .fail msg2 →
      run_select b sql limit = .error msg2) ∧
    (∀ (b : Backend) (sql : List Char) (limit : Option Int)
      (msg : List Char),
      b 0 = .fail msg → abortedMsg msg = false →
      run_select b sql limit = .error msg) ∧
    (∀ (b b2 : Backend) (sql : List Char) (limit : Option Int),
      b 0 = b2 0 → b 1 = b2 1 →
      run_select b sql limit = run_select b2 sql limit) := by
  refine ⟨?_, ?_, ?_, ?_⟩
  · intro b sql limit msg q h0 ha h1
    unfold run_select
    rw [h0]
    dsimp only
    rw [if_pos ha, h1]
  · intro b sql limit msg msg2 h0 ha h1
    unfold run_select
    rw [h0]
    dsimp only
    rw [if_pos ha, h1]
  · intro b sql limit msg h0 ha
    unfold run_select
    rw [h0]
    dsimp only
    rw [if_neg (by simp [ha])]
  · intro b b2 sql limit h0 h1
    unfold run_select
    rw [h0, h1]

/-- Closed instances of `C5_retry_once`: the transactional
fail-then-succeed backend succeeds, the twice-failing backend surfaces
the second message, and the non-transactional failure surfaces at once
without consulting the second attempt. -/
theorem C5_retry_once_witness :
    run_select retryBackend "q".toList (some 5) =
      .ok (mkEnvelope ⟨["c".toList], [[Cell.int 7]]⟩ (some 5) "q".toList) ∧
    run_select doubleFailBackend "q".toList Option.none =
      .error "still broken".toList ∧
    run_select syntaxErrBackend "q".toList Option.none =
      .error "relation t does not exist".toList := by
  refine ⟨?_, ?_, ?_⟩
  · exact C5_retry_once.1 retryBackend "q".toList (some 5)
      "current transaction is aborted".toList ⟨["c".toList], [[Cell.int 7]]⟩
      rfl (by rfl) rfl
  · exact C5_retry_once.2.1 doubleFailBackend "q".toList Option.none
      "aborted".toList "still broken".toList rfl (by rfl) rfl
  · exact C5_retry_once.2.2.1 syntaxErrBackend "q".toList Option.none
      "relation t does not exist".toList rfl (by rfl)

/-- Field invariants of a constructed envelope. -/
theorem mkEnvelope_spec (q : QueryResult) (limit : Option Int)
    (sql : List Char) :
    (mkEnvelope q limit sql).row_count = (mkEnvelope q limit sql).rows.length ∧
    (mkEnvelope q limit sql).truncated =
      (pyTruthy limit &&
        (((mkEnvelope q limit sql).rows.length : Int) == limit.getD 0)) := by
  unfold mkEnvelope
  exact ⟨rfl, by rw [List.length_map]⟩

/-- **C6.**  In every successful result of `_run_select`, `row_count`
equals the length of the `rows` sequence, and `truncated` is true
exactly when the cap is truthy and the number of fetched rows equals the
cap; in particular cap 5 with a 5-row backend sets `truncated`, and
cap 5 with a 3-row backend does not. -/
theorem C6_row_count_truncated :
    (∀ (b : Backend) (sql : List Char) (limit : Option Int) (env : Envelope),
      run_select b sql limit = .ok env →
      env.row_count = env.rows.length ∧
      env.truncated =
        (pyTruthy limit && ((env.rows.length : Int) == limit.getD 0))) ∧
    (∃ env5, run_select fiveRowBackend "q".toList (some 5) = .ok env5 ∧
      env5.row_count = 5 ∧ env5.truncated = true) ∧
    (∃ env3, run_select threeRowBackend "q".toList (some 5) = .ok env3 ∧
      env3.row_count = 3 ∧ env3.truncated = false) := by
  refine ⟨?_, ⟨_, rfl, rfl, rfl⟩, ⟨_, rfl, rfl, rfl⟩⟩
  intro b sql limit env h
  unfold run_select at h
  cases hb0 : b 0 with
  | ok q =>
    rw [hb0] at h
    injection h with h
    rw [← h]
    exact mkEnvelope_spec q limit sql
  | fail msg =>
    rw [hb0] at h
    dsimp only at h
    by_cases ha : abortedMsg msg = true
    · rw [if_pos ha] at h
      cases hb1 : b 1 with
      | ok q =>
        rw [hb1] at h
        dsimp only at h
        injection h with h
        rw [← h]
        exact mkEnvelope_spec q limit sql
      | fail msg2 => rw [hb1] at h; dsimp only at h; cases h
    · rw [if_neg ha] at h; cases h

/-- Closed instance of `C6_row_count_truncated`'s universal part. -/
theorem C6_row_count_truncated_witness :
    (mkEnvelope ⟨["c".toList], [[Cell.int 1]]⟩ (some 5) "q".toList).row_count =
      (mkEnvelope ⟨["c".toList], [[Cell.int 1]]⟩ (some 5) "q".toList).rows.length :=
  (C6_row_count_truncated.1 okBackend "q".toList (some 5)
    (mkEnvelope ⟨["c".toList], [[Cell.int 1]]⟩ (some 5) "q".toList) rfl).1

/-! ## Parameter fixtures (C7, C10, C2) -/

/-- A case-folding coercion (`str.lower`), as used by case-insensitive
parameters. -/
def lowerScalar : Scalar → Except (List Char) Scalar
  | .str s => .ok (.str (s.map pyLowerChar))
  | s => .ok s

/-- A transform appending the element `"c"` (exercises that the
transform runs after coercion and before validation). -/
def appendC : Value → Except (List Char) Value
  | .list vs => .ok (.list (vs ++ [.str "c".toList]))
  | v => .ok v

/-- A list-shaped parameter with choices `{"a","b","c"}`. -/
def pListABC : ParameterSpec :=
  { name := "p".toList, kind := "list".toList,
    choices := some ["a".toList, "b".toList, "c".toList] }

/-- `pListABC` with a lower-casing coercion. -/
def pListLower : ParameterSpec := { pListABC with coerce := some lowerScalar }

/-- `pListABC` with the `appendC` transform. -/
def pListTrans : ParameterSpec := { pListABC with transform := some appendC }

/-- A list-shaped parameter with no coercion, transform, bounds or
choices (any name). -/
def pListPlain (nm : List Char) : ParameterSpec :=
  ParameterSpec.mk nm Option.none Option.none Option.none Option.none
    Option.none Option.none "list".toList true false

/-- A scalar parameter with `max_value = 10`. -/
def pMaxTen : ParameterSpec := { name := "q".toList, max_value := some 10 }

/-- A scalar parameter with choices `{"1","2"}`. -/
def pChoice12 : ParameterSpec :=
  { name := "r".toList, choices := some ["1".toList, "2".toList] }

/-- `forM` of an always-succeeding check. -/
theorem forM_ok (vs : List Scalar)
    (f : Scalar → Except (List Char) Unit) (hf : ∀ s, f s = .ok ()) :
    vs.forM f = .ok () := by
  induction vs with
  | nil => rfl
  | cons v vs ih =>
    have h1 : (v :: vs).forM f = vs.forM f := by
      rw [show (v :: vs).forM f = f v >>= fun _ => vs.forM f from rfl, hf]
      rfl
    rw [h1, ih]

/-- **C7.**  `ParameterSpec.apply` runs shape normalization, then
element-wise coercion, then the transform, then per-element validation:
(i) for any string input, a plain list parameter yields exactly the
split/trimmed/nonempty fragments; (ii) `"a,b"` with choices
`{a,b,c}` yields `["a","b"]`; (iii) `"a,z"` raises a validation error;
(iv) `["A","B"]` under a lower-casing coercion yields `["a","b"]`
(coercion precedes validation); (v) a transform output is what gets
validated (transform precedes validation, follows coercion). -/
theorem C7_apply_pipeline :
    (∀ s nm : List Char,
      (pListPlain nm).apply (.scalar (.str s)) =
        .ok (.list (splitListArg s))) ∧
    pListABC.apply (.scalar (.str "a,b".toList)) =
      .ok (.list [.str "a".toList, .str "b".toList]) ∧
    pListABC.apply (.scalar (.str "a,z".toList)) =
      .error "p must be one of a, b, c".toList ∧
    pListLower.apply (.list [.str "A".toList, .str "B".toList]) =
      .ok (.list [.str "a".toList, .str "b".toList]) ∧
    pListTrans.apply (.scalar (.str " a , b ,".toList)) =
      .ok (.list [.str "a".toList, .str "b".toList, .str "c".toList]) := by
  refine ⟨?_, rfl, rfl, rfl, rfl⟩
  intro s nm
  have hval : ∀ x : Scalar,
      (pListPlain nm).validate_scalar (.scalar x) = .ok () := fun _ => rfl
  have hforM := forM_ok (splitListArg s) _ hval
  simp [pListPlain] at hforM
  simp [ParameterSpec.apply, pListPlain, hforM]

/-- Closed instance of `C7_apply_pipeline`'s universal part. -/
theorem C7_apply_pipeline_witness :
    (pListPlain "p".toList).apply (.scalar (.str " x ,, y".toList)) =
      .ok (.list (splitListArg " x ,, y".toList)) :=
  C7_apply_pipeline.1 " x ,, y".toList "p".toList

/-- **C10.**  `_validate_scalar` enforces numeric bounds only on values
that are `int`/`float` instances: (i) with no choices configured, a
non-numeric value always validates, whatever the bounds; (ii) the string
`"999"` passes `max_value = 10` unchanged through `apply`; (iii) an
actual int 999 is rejected by the same spec; (iv) choice membership is
checked for every value by comparing string forms (`str(value)`), so the
int `1` matches the string choice `"1"` while the int `3` fails. -/
theorem C10_bounds_only_numeric :
    (∀ (p : ParameterSpec) (v : Value),
      p.choices = Option.none → numericVal v = Option.none →
      p.validate_scalar v = .ok ()) ∧
    pMaxTen.apply (.scalar (.str "999".toList)) =
      .ok (.scalar (.str "999".toList)) ∧
    pMaxTen.apply (.scalar (.int 999)) = .error "q must be <= 10".toList ∧
    pChoice12.validate_scalar (.scalar (.int 1)) = .ok () ∧
    pChoice12.validate_scalar (.scalar (.str "1".toList)) = .ok () ∧
    pChoice12.validate_scalar (.scalar (.int 3)) =
      .error "r must be one of 1, 2".toList := by
  refine ⟨?_, rfl, rfl, rfl, rfl, rfl⟩
  intro p v hch hnum
  obtain ⟨nm, df, co, tr, mn, mx, ch, k, inc, lit⟩ := p
  dsimp only at hch
  subst hch
  cases mn <;> cases mx <;>
    simp [ParameterSpec.validate_scalar, hnum] <;> rfl

/-- Closed instance of `C10_bounds_only_numeric`'s universal part. -/
theorem C10_bounds_only_numeric_witness :
    pMaxTen.validate_scalar (.scalar .nonev) = .ok () :=
  C10_bounds_only_numeric.1 pMaxTen (.scalar .nonev) rfl rfl

/-! ## The tool boundary (C2) -/

/-- A backend that always fails with a non-transactional message. -/
def failBackend : Backend := fun _ => .fail "boom".toList

/-- A one-parameter tool whose parameter has choices `{"a"}`. -/
def specChoiceTool : SQLToolSpec :=
  { name := "t".toList, sql := "SELECT 1".toList,
    params := [{ name := "p".toList, choices := some ["a".toList] }] }

/-- A parameterless tool whose template fails the safety validator. -/
def specDropTool : SQLToolSpec :=
  { name := "d".toList, sql := "SELECT 1; DROP TABLE t".toList }

/-- A parameterless tool with an innocuous template. -/
def specPlainTool : SQLToolSpec :=
  { name := "s".toList, sql := "SELECT 1".toList }

/-- **C2, counterexample.**  The claim says every parameter-validation
failure is returned as a `{"error": ...}` JSON object; but the
`ValueError` raised by `ParameterSpec.apply` inside the generated tool
body is not caught there: it propagates out of the tool callable. -/
theorem C2_counterexample :
    toolRun okBackend emptyMacros tdStd specChoiceTool
      [.scalar (.str "z".toList)] [] =
      .raised "p must be one of a".toList := rfl

/-- **C2, amended.**  Rejected statements and execution failures are
caught inside `fetch` and returned as the `{"error": ...}` envelope, so
they never raise out of the tool; but a parameter-validation failure
(`ParameterSpec.apply` raising on a supplied positional value) escapes
the tool callable as an exception instead of being converted to the
envelope. -/
theorem C2_amended :
    (∀ (b : Backend) (m : Macros) (td : TableDef) (spec : SQLToolSpec)
      (p : ParameterSpec) (ps : List ParameterSpec) (v : Value)
      (kwargs : List (List Char × Value)) (e : List Char),
      spec.params = p :: ps → p.apply v = .error e →
      toolRun b m td spec [v] kwargs = .raised e) ∧
    toolRun okBackend emptyMacros tdStd specDropTool [] [] =
      .result (.err "Forbidden keyword detected: DROP".toList) ∧
    toolRun failBackend emptyMacros tdStd specPlainTool [] [] =
      .result (.err "boom".toList) := by
  refine ⟨?_, rfl, rfl⟩
  intro b m td spec p ps v kwargs e hps happ
  unfold toolRun toolRunE
  rw [hps]
  rw [if_neg (by simp)]
  simp only [applyPositional, happ]
  rfl

/-- Closed instance of `C2_amended`'s universal part. -/
theorem C2_amended_witness :
    toolRun okBackend emptyMacros tdStd specChoiceTool
      [.scalar (.str "b".toList)] [] =
      .raised "p must be one of a".toList :=
  C2_amended.1 okBackend emptyMacros tdStd specChoiceTool
    { name := "p".toList, choices := some ["a".toList] } []
    (.scalar (.str "b".toList)) [] "p must be one of a".toList rfl (by rfl)

/-! ## Macro expansion lemmas (C4, C8) -/

/-- What `_MACRO_PATTERN`'s name group can capture: a nonempty run of
`[A-Z0-9_]`. -/
def validMacroName (n : List Char) : Bool :=
  !n.isEmpty && n.all isMacroNameChar

/-- What `_MACRO_PATTERN`'s optional alias group can capture:
`[A-Za-z_][A-Za-z0-9_]*`. -/
def validAliasCapture : Option (List Char) → Bool
  | Option.none => true
  | some [] => false
  | some (c :: cs) => isAliasStartChar c && cs.all isWordChar

/-- The full placeholder text for a name and optional alias. -/
def placeholder (n : List Char) (al : Option (List Char)) : List Char :=
  MacroMatch.matched ⟨n, al, []⟩

theorem isMacroNameChar_ne (c : Char) (h : isMacroNameChar c = true) :
    c ≠ '{' ∧ c ≠ '}' ∧ c ≠ ':' := by
  refine ⟨?_, ?_, ?_⟩ <;> rintro rfl <;> simp [isMacroNameChar] at h

theorem isWordChar_ne (c : Char) (h : isWordChar c = true) :
    c ≠ '{' ∧ c ≠ '}' := by
  constructor <;> rintro rfl <;>
    simp [isWordChar, isAliasStartChar] at h

theorem takeWhile_append_all (p : Char → Bool) (xs ys : List Char)
    (h : ∀ c ∈ xs, p c = true) :
    (xs ++ ys).takeWhile p = xs ++ ys.takeWhile p := by
  induction xs with
  | nil => rfl
  | cons x xs ih =>
    simp only [List.cons_append, List.takeWhile_cons_of_pos (h x (by simp))]
    rw [ih (fun c hc => h c (by simp [hc]))]

theorem dropWhile_append_all (p : Char → Bool) (xs ys : List Char)
    (h : ∀ c ∈ xs, p c = true) :
    (xs ++ ys).dropWhile p = ys.dropWhile p := by
  induction xs with
  | nil => rfl
  | cons x xs ih =>
    simp only [List.cons_append, List.dropWhile_cons_of_pos (h x (by simp))]
    exact ih (fun c hc => h c (by simp [hc]))

/-- Shape of a successful `_MACRO_PATTERN` match: the input splits into
the matched text followed by the rest, and the captures are valid. -/
theorem matchMacro_eq_some (l : List Char) (mm : MacroMatch)
    (h : matchMacro l = some mm) :
    l = mm.matched ++ mm.rest ∧ validMacroName mm.name = true ∧
      validAliasCapture mm.aliasOpt = true := by
  unfold matchMacro at h
  split at h
  case _ rest =>
    dsimp only at h
    by_cases hemp : (rest.takeWhile isMacroNameChar).isEmpty = true
    · rw [if_pos hemp] at h; cases h
    · rw [if_neg hemp] at h
      have hsplit := List.takeWhile_append_dropWhile isMacroNameChar rest
      have hall : ∀ c ∈ rest.takeWhile isMacroNameChar, isMacroNameChar c = true :=
        fun c hc => List.mem_takeWhile_imp hc
      have hne : (rest.takeWhile isMacroNameChar).isEmpty = false := by
        cases hh : (rest.takeWhile isMacroNameChar).isEmpty
        · rfl
        · exact absurd hh hemp
      split at h
      · -- `}}` directly after the name: no alias
        next rest2 hd =>
          injection h with h
          subst h
          refine ⟨?_, ?_, rfl⟩
          · conv_lhs => rw [← hsplit, hd]
            simp [MacroMatch.matched]
          · simp only [validMacroName, Bool.and_eq_true, Bool.not_eq_true',
              List.all_eq_true]
            exact ⟨hne, hall⟩
      · -- `:` after the name: alias capture
        next c0 rest3 hd =>
          by_cases hstart : isAliasStartChar c0 = true
          · rw [if_pos hstart] at h
            split at h
            · next rest4 hd4 =>
                injection h with h
                subst h
                have hsplit3 := List.takeWhile_append_dropWhile isWordChar rest3
                refine ⟨?_, ?_, ?_⟩
                · conv_lhs => rw [← hsplit, hd, ← hsplit3, hd4]
                  simp [MacroMatch.matched]
                · simp only [validMacroName, Bool.and_eq_true, Bool.not_eq_true',
                    List.all_eq_true]
                  exact ⟨hne, hall⟩
                · simp only [validAliasCapture, Bool.and_eq_true,
                    List.all_eq_true]
                  exact ⟨hstart, fun c hc => List.mem_takeWhile_imp hc⟩
            · cases h
          · rw [if_neg hstart] at h; cases h
      · cases h
  case _ => cases h

/-- A match consumes at least the two opening braces. -/
theorem matchMacro_rest_length (l : List Char) (mm : MacroMatch)
    (h : matchMacro l = some mm) : mm.rest.length < l.length := by
  obtain ⟨hshape, -, -⟩ := matchMacro_eq_some l mm h
  rw [hshape]
  simp [MacroMatch.matched]
  omega

/-- At the head of a well-formed placeholder, `_MACRO_PATTERN` matches
exactly that placeholder, capturing its name and alias. -/
theorem matchMacro_placeholder (n : List Char) (al : Option (List Char))
    (s : List Char) (hn : validMacroName n = true)
    (ha : validAliasCapture al = true) :
    matchMacro (placeholder n al ++ s) = some ⟨n, al, s⟩ := by
  have hnall : ∀ c ∈ n, isMacroNameChar c = true := by
    simp only [validMacroName, Bool.and_eq_true, List.all_eq_true] at hn
    exact hn.2
  have hnne : ¬n.isEmpty = true := by
    simp only [validMacroName, Bool.and_eq_true, Bool.not_eq_true'] at hn
    simp [hn.1]
  cases al with
  | none =>
    unfold placeholder
    dsimp only [MacroMatch.matched]
    simp only [List.append_nil, List.append_assoc, List.cons_append,
      List.nil_append]
    simp only [matchMacro]
    rw [takeWhile_append_all _ _ _ hnall,
      dropWhile_append_all _ _ _ hnall]
    rw [List.takeWhile_cons_of_neg (by decide : ¬isMacroNameChar '}' = true),
      List.dropWhile_cons_of_neg (by decide : ¬isMacroNameChar '}' = true)]
    simp [hnne]
  | some a =>
    cases a with
    | nil => cases ha
    | cons c0 cs =>
      simp only [validAliasCapture, Bool.and_eq_true, List.all_eq_true] at ha
      obtain ⟨hstart, hcs⟩ := ha
      unfold placeholder
      dsimp only [MacroMatch.matched]
      simp only [List.append_nil, List.append_assoc, List.cons_append,
        List.nil_append]
      simp only [matchMacro]
      rw [takeWhile_append_all _ _ _ hnall,
        dropWhile_append_all _ _ _ hnall]
      rw [List.takeWhile_cons_of_neg (by decide : ¬isMacroNameChar ':' = true),
        List.dropWhile_cons_of_neg (by decide : ¬isMacroNameChar ':' = true)]
      simp only [hnne, Bool.false_eq_true, if_false, if_pos hstart]
      rw [takeWhile_append_all _ _ _ hcs,
        dropWhile_append_all _ _ _ hcs]
      rw [List.takeWhile_cons_of_neg (by decide : ¬isWordChar '}' = true),
        List.dropWhile_cons_of_neg (by decide : ¬isWordChar '}' = true)]
      simp [hnne]

/-- The fuel passed to `expandGoF` is irrelevant once it covers the
input length (so `expand_macros`'s choice of the exact length is
inessential in proofs). -/
theorem expandGoF_fuel (m : Macros) :
    ∀ (fuel : Nat) (l : List Char), l.length ≤ fuel →
      expandGoF m fuel l = expandGoF m l.length l := by
  intro fuel
  induction fuel using Nat.strong_induction_on with
  | _ fuel ih =>
    match fuel with
    | 0 =>
      intro l hl
      have : l = [] := List.eq_nil_of_length_eq_zero (Nat.le_zero.mp hl)
      subst this
      rfl
    | f + 1 =>
      intro l hl
      cases l with
      | nil => rfl
      | cons c cs =>
        have hcs : cs.length ≤ f := by
          simpa using hl
        show (match matchMacro (c :: cs) with
          | some mm => replaceMatch m mm ++ expandGoF m f mm.rest
          | none => c :: expandGoF m f cs) =
          (match matchMacro (c :: cs) with
          | some mm => replaceMatch m mm ++ expandGoF m cs.length mm.rest
          | none => c :: expandGoF m cs.length cs)
        cases hm : matchMacro (c :: cs) with
        | some mm =>
          dsimp only
          have hr : mm.rest.length ≤ cs.length := by
            have := matchMacro_rest_length (c :: cs) mm hm
            simp at this
            omega
          rw [ih f (Nat.lt_succ_self f) mm.rest (le_trans hr hcs)]
          rw [ih cs.length (Nat.lt_succ_of_le hcs) mm.rest hr]
        | none =>
          dsimp only
          rw [ih f (Nat.lt_succ_self f) cs hcs,
            ih cs.length (Nat.lt_succ_of_le hcs) cs (le_refl _)]

/-- Unfolding `expand_macros` at a match site. -/
theorem expand_macros_match (m : Macros) (l : List Char) (mm : MacroMatch)
    (h : matchMacro l = some mm) :
    expand_macros m l = replaceMatch m mm ++ expand_macros m mm.rest := by
  cases l with
  | nil => cases h
  | cons c cs =>
    show (match matchMacro (c :: cs) with
      | some mm => replaceMatch m mm ++ expandGoF m cs.length mm.rest
      | none => c :: expandGoF m cs.length cs) = _
    rw [h]
    dsimp only
    have hr : mm.rest.length ≤ cs.length := by
      have := matchMacro_rest_length (c :: cs) mm h
      simp at this
      omega
    rw [expandGoF_fuel m cs.length mm.rest hr]
    rfl

/-- Unfolding `expand_macros` where no match starts. -/
theorem expand_macros_no_match (m : Macros) (c : Char) (cs : List Char)
    (h : matchMacro (c :: cs) = none) :
    expand_macros m (c :: cs) = c :: expand_macros m cs := by
  show (match matchMacro (c :: cs) with
    | some mm => replaceMatch m mm ++ expandGoF m cs.length mm.rest
    | none => c :: expandGoF m cs.length cs) = _
  rw [h]
  dsimp only
  rfl

/-- The substring test agrees with the existence of a decomposition. -/
theorem containsSub_iff (pat l : List Char) :
    containsSub pat l = true ↔ ∃ p s, l = p ++ pat ++ s := by
  induction l with
  | nil =>
    simp only [containsSub, List.isEmpty_iff]
    constructor
    · rintro rfl
      exact ⟨[], [], rfl⟩
    · rintro ⟨p, s, h⟩
      cases p with
      | cons _ _ => cases h
      | nil =>
        cases pat with
        | cons _ _ => cases h
        | nil => rfl
  | cons c cs ih =>
    simp only [containsSub, Bool.or_eq_true, ih]
    constructor
    · rintro (hpre | ⟨p, s, rfl⟩)
      · obtain ⟨t, ht⟩ := List.isPrefixOf_iff_prefix.mp hpre
        exact ⟨[], t, by simp [← ht]⟩
      · exact ⟨c :: p, s, by simp⟩
    · rintro ⟨p, s, h⟩
      cases p with
      | nil =>
        left
        exact List.isPrefixOf_iff_prefix.mpr ⟨s, by simpa using h.symm⟩
      | cons p0 ps =>
        right
        injection h with h1 h2
        exact ⟨ps, s, h2⟩

/-- A substring of the tail is a substring. -/
theorem containsSub_cons (pat : List Char) (c : Char) (l : List Char)
    (h : containsSub pat l = true) : containsSub pat (c :: l) = true := by
  simp only [containsSub, Bool.or_eq_true]
  exact Or.inr h

/-- A substring survives prepending any text. -/
theorem containsSub_append_left (pat x l : List Char)
    (h : containsSub pat l = true) : containsSub pat (x ++ l) = true := by
  induction x with
  | nil => exact h
  | cons c cs ih => exact containsSub_cons pat c (cs ++ l) ih

/-- Every character of the interior of a matched placeholder (everything
after the opening braces) differs from `'\x7b'`. -/
theorem matched_body_ne_lbrace (mm : MacroMatch)
    (hn : validMacroName mm.name = true)
    (ha : validAliasCapture mm.aliasOpt = true) :
    ∀ c ∈ mm.name ++
      ((match mm.aliasOpt with
        | Option.none => []
        | some a => ':' :: a) ++ ['}', '}']), c ≠ '{' := by
  simp only [validMacroName, Bool.and_eq_true, List.all_eq_true] at hn
  intro c hc
  rcases List.mem_append.mp hc with hname | hmid
  · exact (isMacroNameChar_ne c (hn.2 c hname)).1
  · rcases List.mem_append.mp hmid with hal | htail
    · cases hal2 : mm.aliasOpt with
      | none => rw [hal2] at hal; cases hal
      | some a =>
        rw [hal2] at hal
        rcases List.mem_cons.mp hal with rfl | hmem
        · decide
        · cases a with
          | nil => rw [hal2] at ha; cases ha
          | cons a0 arest =>
            rw [hal2] at ha
            simp only [validAliasCapture, Bool.and_eq_true,
              List.all_eq_true] at ha
            rcases List.mem_cons.mp hmem with rfl | hmem2
            · exact (isWordChar_ne c (by
                have := ha.1
                simp [isWordChar, this])).1
            · exact (isWordChar_ne c (ha.2 c hmem2)).1
    · have hc2 : c = '}' := by simpa using htail
      subst hc2
      decide

/-- A matched placeholder text is two opening braces followed by a
nonempty body free of `'\x7b'` — so no second placeholder can start
strictly inside a match. -/
theorem matched_structure (mm : MacroMatch)
    (hn : validMacroName mm.name = true)
    (ha : validAliasCapture mm.aliasOpt = true) :
    ∃ B, mm.matched = '{' :: '{' :: B ∧ B ≠ [] ∧ ∀ x ∈ B, x ≠ '{' := by
  refine ⟨_, rfl, ?_, ?_⟩
  · simp [MacroMatch.matched]
  · intro x hx
    apply matched_body_ne_lbrace mm hn ha
    simpa [List.append_assoc] using hx

/-- Core preservation argument for C8: an occurrence of a well-formed
placeholder whose name is unregistered survives `_MACRO_PATTERN.sub`.
Placeholders cannot overlap (a match's interior contains no `'\x7b'`), so
the occurrence is either the match at hand — reproduced verbatim by the
`replacer` since the lookup misses — or lies wholly in untouched text. -/
theorem expandGoF_preserves (m : Macros) (n : List Char)
    (al : Option (List Char)) (hn : validMacroName n = true)
    (ha : validAliasCapture al = true) (hm : m n = Option.none) :
    ∀ (fuel : Nat) (l : List Char), l.length ≤ fuel →
      containsSub (placeholder n al) l = true →
      containsSub (placeholder n al) (expandGoF m fuel l) = true := by
  intro fuel
  induction fuel using Nat.strong_induction_on with
  | _ fuel ih =>
    match fuel with
    | 0 =>
      intro l hl hc
      have hnil : l = [] := List.eq_nil_of_length_eq_zero (Nat.le_zero.mp hl)
      subst hnil
      exact hc
    | f + 1 =>
      intro l hl hc
      cases l with
      | nil => exact hc
      | cons c cs =>
        have hcs : cs.length ≤ f := by simpa using hl
        obtain ⟨p, s, hdec⟩ := (containsSub_iff _ _).mp hc
        show containsSub (placeholder n al)
          (match matchMacro (c :: cs) with
            | some mm => replaceMatch m mm ++ expandGoF m f mm.rest
            | none => c :: expandGoF m f cs) = true
        cases hmm : matchMacro (c :: cs) with
        | none =>
          dsimp only
          cases p with
          | nil =>
            simp only [List.nil_append] at hdec
            rw [hdec, matchMacro_placeholder n al s hn ha] at hmm
            cases hmm
          | cons p0 ps =>
            injection hdec with h1 h2
            exact containsSub_cons _ _ _
              (ih f (Nat.lt_succ_self f) cs hcs
                ((containsSub_iff _ _).mpr ⟨ps, s, h2⟩))
        | some mm =>
          dsimp only
          obtain ⟨hshape, hnm, ham⟩ := matchMacro_eq_some _ _ hmm
          have hrestlen : mm.rest.length ≤ f := by
            have := matchMacro_rest_length (c :: cs) mm hmm
            simp at this
            omega
          cases p with
          | nil =>
            simp only [List.nil_append] at hdec
            rw [hdec, matchMacro_placeholder n al s hn ha] at hmm
            injection hmm with hmm
            subst hmm
            have hrepl : replaceMatch m ⟨n, al, s⟩ = placeholder n al := by
              simp [replaceMatch, hm, placeholder, MacroMatch.matched]
            rw [hrepl]
            exact (containsSub_iff _ _).mpr ⟨[], expandGoF m f s, by simp⟩
          | cons p0 ps =>
            have heq : (p0 :: ps) ++ (placeholder n al ++ s) =
                mm.matched ++ mm.rest := by
              rw [← List.append_assoc, ← hdec]
              exact hshape
            rcases List.append_eq_append_iff.mp heq with
              ⟨t, hmt, hbt⟩ | ⟨t, hpt, hrt⟩
            · -- the matched text extends to or beyond the occurrence
              obtain ⟨B, hB, hBne, hBfree⟩ := matched_structure mm hnm ham
              cases t with
              | nil =>
                -- occurrence begins exactly at the end of the match
                simp only [List.nil_append] at hbt
                refine containsSub_append_left _ _ _
                  (ih f (Nat.lt_succ_self f) mm.rest hrestlen
                    ((containsSub_iff _ _).mpr
                      ⟨[], s, by rw [List.nil_append]; exact hbt.symm⟩))
              | cons t0 ts =>
                -- the occurrence would start strictly inside the match
                exfalso
                obtain ⟨X, hpat⟩ : ∃ X, placeholder n al = '{' :: '{' :: X :=
                  ⟨_, rfl⟩
                rw [hB] at hmt
                cases ps with
                | nil =>
                  have h1 : '{' :: '{' :: B = p0 :: t0 :: ts := hmt
                  injection h1 with h1a h1b
                  injection h1b with h1c h1d
                  rw [hpat] at hbt
                  subst h1d
                  have h2 : '{' :: '{' :: (X ++ s) =
                      '{' :: (B ++ mm.rest) := by
                    simpa [← h1c] using hbt
                  injection h2 with h2a h2b
                  cases B with
                  | nil => exact hBne rfl
                  | cons b0 bs =>
                    injection h2b with h2c
                    exact hBfree b0 (by simp) h2c.symm
                | cons p1 ps2 =>
                  have h1 : '{' :: '{' :: B = p0 :: p1 :: (ps2 ++ t0 :: ts) :=
                    hmt
                  injection h1 with h1a h1b
                  injection h1b with h1c h1d
                  rw [hpat] at hbt
                  have h2 : '{' :: '{' :: (X ++ s) =
                      t0 :: (ts ++ mm.rest) := hbt
                  injection h2 with h2a h2b
                  refine hBfree t0 ?_ h2a.symm
                  rw [h1d]
                  simp
            · -- the occurrence lies in the rest
              refine containsSub_append_left _ _ _
                (ih f (Nat.lt_succ_self f) mm.rest hrestlen
                  ((containsSub_iff _ _).mpr
                    ⟨t, s, hrt.trans (List.append_assoc t _ s).symm⟩))

/-- **C8.**  For every template and macro registry, a well-formed
placeholder (`\x7b\x7bFOO\x7d\x7d` or `\x7b\x7bFOO:alias\x7d\x7d`) whose name is not
registered is left unchanged by `expand_macros`: the exact placeholder
substring still occurs in the output, wherever it occurs in the
template; and expansion is total (no error is raised). -/
theorem C8_unregistered_placeholder (m : Macros) (n : List Char)
    (al : Option (List Char)) (p s : List Char)
    (hn : validMacroName n = true) (ha : validAliasCapture al = true)
    (hm : m n = Option.none) :
    containsSub (placeholder n al)
      (expand_macros m (p ++ placeholder n al ++ s)) = true := by
  unfold expand_macros
  exact expandGoF_preserves m n al hn ha hm _ _ (le_refl _)
    ((containsSub_iff _ _).mpr ⟨p, s, rfl⟩)

/-- Closed instance of `C8_unregistered_placeholder`: an unregistered
`\x7b\x7bFOO\x7d\x7d` survives expansion against the table macros. -/
theorem C8_unregistered_placeholder_witness :
    containsSub (placeholder "FOO".toList Option.none)
      (expand_macros emptyMacros
        ("SELECT * FROM ".toList ++ placeholder "FOO".toList Option.none ++
          " WHERE x = 1".toList)) = true :=
  C8_unregistered_placeholder emptyMacros "FOO".toList Option.none
    "SELECT * FROM ".toList " WHERE x = 1".toList (by decide) (by decide) rfl

/-! ## C4: single-pass expansion versus the double-expanding pipeline -/

/-- The macro registry `A ↦ "\x7b\x7bB\x7d\x7d"`, `B ↦ "1"`. -/
def mAB : Macros := fun nm =>
  if nm = "A".toList then some (.lit ('{' :: '{' :: 'B' :: '}' :: '}' :: []))
  else if nm = "B".toList then some (.lit "1".toList)
  else Option.none

/-- **C4, counterexample.**  The claim says the SQL text that reaches
the safety validator and execution still contains a macro value's inner
placeholder unexpanded.  But `run_query` expands once and `fetch` →
`_prepare_query` expands a second time, so with `A ↦ "\x7b\x7bB\x7d\x7d"` and
`B ↦ "1"` the inner `\x7b\x7bB\x7d\x7d` is expanded by the second pass: the
prepared/executed statement is `SELECT 1 LIMIT 200` and contains no
placeholder. -/
theorem C4_counterexample :
    expand_macros mAB "SELECT \x7b\x7bA\x7d\x7d".toList =
      "SELECT \x7b\x7bB\x7d\x7d".toList ∧
    prepare_query mAB tdStd (expand_macros mAB "SELECT \x7b\x7bA\x7d\x7d".toList)
      Option.none true = .ok ("SELECT 1 LIMIT 200".toList, some 200) ∧
    containsSub "\x7b\x7bB\x7d\x7d".toList "SELECT 1 LIMIT 200".toList = false ∧
    run_query okBackend mAB tdStd "SELECT \x7b\x7bA\x7d\x7d".toList Option.none true =
      .ok ⟨["c".toList], [[("c".toList, Cell.int 1)]], 1, false,
        "SELECT 1 LIMIT 200".toList⟩ :=
  ⟨rfl, rfl, rfl, rfl⟩

/-- **C4, amended.**  Each single call to `expand_macros` is one-pass:
the substituted value of a registered literal macro is emitted verbatim,
never rescanned, so placeholder syntax inside it survives that call
(first conjunct: expanding a lone registered placeholder yields exactly
its literal value, whatever that value contains).  However, the pipeline
applies `expand_macros` twice — once in `run_query`/`make_sql_tool` and
once more inside `_prepare_query` — so a placeholder inside a macro
value is expanded by the second pass when its name is registered; only
placeholders still present after both passes reach execution unexpanded
(second conjunct: the text `_prepare_query` validates and returns is the
expansion of its input, which `run_query` had already expanded once). -/
theorem C4_amended (m : Macros) (n v s : List Char)
    (hn : validMacroName n = true) (hm : m n = some (.lit v)) :
    expand_macros m (placeholder n Option.none ++ s) =
      v ++ expand_macros m s ∧
    (∀ (td : TableDef) (sql text : List Char) (max_rows cap : Option Int),
      prepare_query m td sql max_rows true = .ok (text, cap) →
      findLimit (expand_macros m (pyStrip sql)) = none →
      text = rstripSemicolons (expand_macros m (pyStrip sql)) ++
        " LIMIT ".toList ++
        renderInt (max 1 (min (pyOrInt max_rows td.default_limit)
          td.max_limit))) := by
  constructor
  · rw [expand_macros_match m _ ⟨n, Option.none, s⟩
      (matchMacro_placeholder n Option.none s hn rfl)]
    simp [replaceMatch, hm]
  · intro td sql text max_rows cap h hfl
    cases cap with
    | none =>
      exfalso
      unfold prepare_query at h
      dsimp only at h
      by_cases h1 : (pyStrip sql).isEmpty = true
      · rw [if_pos h1] at h; cases h
      · rw [if_neg h1] at h
        by_cases h2 : ("SELECT".toList.isPrefixOf
            (pyUpper (pyLstrip (expand_macros m (pyStrip sql)))) ||
          "WITH".toList.isPrefixOf
            (pyUpper (pyLstrip (expand_macros m (pyStrip sql))))) = true
        · rw [if_neg (not_not_intro h2)] at h
          cases hf : List.find? (fun kw => containsSub kw
              (pyUpper (pyLstrip (expand_macros m (pyStrip sql)))))
              FORBIDDEN_KEYWORDS with
          | some k => rw [hf] at h; cases h
          | none =>
            rw [hf] at h
            rw [if_neg (by simp)] at h
            rw [hfl] at h
            cases h
        · rw [if_pos h2] at h; cases h
    | some capv =>
      exact ((prepare_ok_spec m td sql max_rows text capv h).2 hfl).2

/-- Closed instance of `C4_amended`: with `A ↦ "\x7b\x7bB\x7d\x7d"` registered,
one expansion pass of `\x7b\x7bA\x7d\x7d` emits `\x7b\x7bB\x7d\x7d` without rescanning
it. -/
theorem C4_amended_witness :
    expand_macros mAB (placeholder "A".toList Option.none ++ [] : List Char) =
      ('{' :: '{' :: 'B' :: '}' :: '}' :: []) ++
        expand_macros mAB ([] : List Char) :=
  (C4_amended mAB "A".toList ('{' :: '{' :: 'B' :: '}' :: '}' :: []) []
    (by decide) rfl).1

end DsMcp
